import Mathlib

set_option maxRecDepth 40000

/-!
# Verification of the documentation-ingestion pipeline (`src/ingestion/main.py`)

This file gives a shallow embedding of the ingestion pipeline and proves or
refutes the claims of the specification against it.

Modelling conventions:
* Python strings are Lean `String`s; all helper functions (`strip`, `split`,
  `startswith`, `count`, substring search, `re`-based cleaning) are re-implemented
  faithfully over the underlying `List Char` (`String.data`), restricted to the
  ASCII fragment of Python's Unicode semantics.
* External collaborators are modelled at their interface: the frontmatter
  library's result is a field of the document (`none` = the library raised);
  the embedding model is an arbitrary pure function `String → List Int`;
  the vector-store client is a log of upsert calls driven by a success oracle
  `Nat → Bool` indexed by attempt order; `uuid.uuid4()` is a fresh-identifier
  supply (the n-th call yields identifier n), capturing exactly its freshness.
* Exceptions are modelled with `Except`; the only raising operation reachable
  inside the per-document `try` of `ingest_docs` in this model is the store
  upsert, whose failure the code catches and logs (`continue`).
-/

namespace Ingestion

/-- Python whitespace for `str.strip` / regex `\s` (ASCII fragment). -/
def pyIsSpace (c : Char) : Bool :=
  c = ' ' || c = '\t' || c = '\n' || c = '\r' || c = '\x0b' || c = '\x0c'

/-- `str.strip()`: drop leading and trailing whitespace. -/
def pystrip (s : String) : String :=
  ⟨((s.data.dropWhile pyIsSpace).reverse.dropWhile pyIsSpace).reverse⟩

/-- `str.lstrip()`: drop leading whitespace. -/
def pylstrip (s : String) : String :=
  ⟨s.data.dropWhile pyIsSpace⟩

/-- Does `hay` start with `needle`? (`str.startswith`). -/
def listStarts : List Char → List Char → Bool
  | [], _ => true
  | _ :: _, [] => false
  | a :: as, b :: bs => a = b && listStarts as bs

/-- `str.startswith`. -/
def pystartswith (s pre : String) : Bool :=
  listStarts pre.data s.data

/-- `c in s` for a single character. -/
def pycontainsChar (s : String) (c : Char) : Bool :=
  s.data.any (fun x => x = c)

/-- `s.count(c)` for a single character. -/
def pycountChar (s : String) (c : Char) : Nat :=
  (s.data.filter (fun x => x = c)).length

/-- Substring containment (`sub in s`). -/
def listHasSub (needle : List Char) : List Char → Bool
  | [] => needle.isEmpty
  | c :: rest => listStarts needle (c :: rest) || listHasSub needle rest

/-- `sub in s` for strings. -/
def pycontainsSub (s sub : String) : Bool :=
  listHasSub sub.data s.data

/-- `str.split(c)` on a single separator character: keeps empty parts,
`"" → [""]`. -/
def pysplitChar (c : Char) : List Char → List (List Char)
  | [] => [[]]
  | x :: rest =>
    match pysplitChar c rest with
    | [] => [[]]
    | g :: gs => if x = c then [] :: g :: gs else (x :: g) :: gs

/-- `content.split('\n')`. -/
def pysplitLines (s : String) : List String :=
  (pysplitChar '\n' s.data).map String.mk

/-- `sep.join(xs)`. -/
def pyjoin (sep : String) : List String → String
  | [] => ""
  | x :: rest => rest.foldl (fun acc y => acc ++ sep ++ y) x

/-- `str.replace(a, b)` for single characters (replaces every occurrence). -/
def pyreplaceChar (s : String) (a b : Char) : String :=
  ⟨s.data.map (fun c => if c = a then b else c)⟩

/-- Auxiliary scanner for `str.replace(pat, repl)` with non-empty pattern
`p :: pat`: leftmost, non-overlapping.  The scan is given an iteration budget
equal to the input length; since each step consumes at least one character,
the budget is never exhausted when started at the input's length. -/
def replaceSubAux (p : Char) (pat repl : List Char) : Nat → List Char → List Char
  | _, [] => []
  | 0, l => l
  | fuel + 1, c :: rest =>
    if listStarts (p :: pat) (c :: rest) then
      repl ++ replaceSubAux p pat repl fuel (rest.drop pat.length)
    else
      c :: replaceSubAux p pat repl fuel rest

/-- `str.replace(pat, repl)` (all occurrences, leftmost, non-overlapping). -/
def pyreplaceSub (s pat repl : String) : String :=
  match pat.data with
  | [] => s
  | p :: ps => ⟨replaceSubAux p ps repl.data s.data.length s.data⟩

/-- Python `str.title()` (ASCII): uppercase the first letter of each letter
run, lowercase the rest. -/
def pytitleAux : Bool → List Char → List Char
  | _, [] => []
  | prevAlpha, c :: rest =>
    if c.isAlpha then
      (if prevAlpha then c.toLower else c.toUpper) :: pytitleAux true rest
    else
      c :: pytitleAux false rest

/-- `str.title()`. -/
def pytitle (s : String) : String :=
  ⟨pytitleAux false s.data⟩

/-- `pathlib.Path(p).stem`: final path component without its suffix
(the suffix starts at the last dot, provided that dot is neither the first
nor the last character of the component). -/
def pathStem (path : String) : String :=
  let base :=
    match (pysplitChar '/' path.data).getLast? with
    | some b => b
    | none => []
  match base.reverse.findIdx? (fun c => c = '.') with
  | some r =>
    let k := base.length - 1 - r
    if 0 < k && k < base.length - 1 then ⟨base.take k⟩ else ⟨base⟩
  | none => ⟨base⟩

/-- Metadata returned by the (external) frontmatter library: a string-keyed
dictionary with values modelled as strings (`str(value)` where needed). -/
def Metadata := List (String × String)
deriving DecidableEq, Repr, Inhabited

/-- `metadata.get(key)` (first binding wins, like a dict). -/
def mdGet (m : Metadata) (k : String) : Option String :=
  (List.find? (fun p => p.1 = k) m).map (fun p => p.2)

/-- Does `re.match(r'^#{1,4}\s+', line)` succeed? (used by the transcript
skip loop): 1 to 4 leading `#` characters followed by a whitespace
character. -/
def headingStartRe (line : String) : Bool :=
  let n := (line.data.takeWhile (fun c => c = '#')).length
  1 ≤ n && n ≤ 4 &&
    (match line.data.get? n with
     | some c => pyIsSpace c
     | none => false)

/-- `re.match(r'^(#{1,4})\s+(.+)$', line)`: returns `(level, group(2).strip())`
when the line is a markdown heading.  The match requires 1-4 leading `#`, a
whitespace character, and at least one further character; the stripped second
group is then exactly the rest of the line after the `#` run, stripped. -/
def parseHeader (line : String) : Option (Nat × String) :=
  let n := (line.data.takeWhile (fun c => c = '#')).length
  if 1 ≤ n && n ≤ 4 && n + 2 ≤ line.data.length &&
      (match line.data.get? n with
       | some c => pyIsSpace c
       | none => false) then
    some (n, pystrip ⟨line.data.drop n⟩)
  else
    none

/-- `re.match(r'^[-*_]{3,}$', line)`: the whole line is at least three
characters, each one of `-`, `*`, `_`. -/
def hruleRe (line : String) : Bool :=
  3 ≤ line.data.length && line.data.all (fun c => c = '-' || c = '*' || c = '_')

/-- Break condition of the admonition skip loop: a non-blank line indented at
most `indent_level` that does not start with `???` or `!!!`. -/
def admonitionBreak (indent_level : Nat) (l : String) : Bool :=
  pystrip l != "" && (l.length - (pylstrip l).length ≤ indent_level) &&
    !(pystartswith (pystrip l) "???") && !(pystartswith (pystrip l) "!!!")

/-- `is_low_quality_block(lines, start_idx)`: detect and skip low-quality
content blocks; returns `(is_low_quality, end_index)`.  Each `while` loop of
the source is rendered as a `takeWhile`/`findIdx?` computation over the
remaining lines. -/
def is_low_quality_block (lines : List String) (start_idx : Nat) : Bool × Nat :=
  if h : start_idx < lines.length then
    let line := pystrip (lines.get ⟨start_idx, h⟩)
    -- Video transcripts: skip until next heading or 50 lines
    if pystartswith line "??? \"Transcript\"" || pystartswith line "!!! \"Transcript\"" then
      (true, start_idx + 1 +
        (((lines.drop (start_idx + 1)).take 49).takeWhile
          (fun l => !(headingStartRe l))).length)
    -- Markdown tables: skip all consecutive rows containing a pipe
    else if pycontainsChar line '|' && (pycontainsChar line '-' || 3 ≤ pycountChar line '|') then
      (true, start_idx + ((lines.drop start_idx).takeWhile (fun l => pycontainsChar l '|')).length)
    -- HTML blocks: skip until the closing tag (or end of document)
    else if pystartswith line "<div" || pystartswith line "<iframe" then
      let tag := if pycontainsSub line "div" then "div" else "iframe"
      let closing := "</" ++ tag ++ ">"
      match (lines.drop (start_idx + 1)).findIdx? (fun l => pycontainsSub l closing) with
      | some j => (true, start_idx + 1 + j + 1)
      | none => (true, lines.length)
    -- Admonitions: skip while lines stay blank, deeper-indented, or markers
    else if pystartswith line "!!!" || (pystartswith line "???" && pycontainsChar line '"') then
      let indent_level := line.length - (pylstrip line).length
      (true, start_idx + 1 +
        ((lines.drop (start_idx + 1)).takeWhile
          (fun l => !(admonitionBreak indent_level l))).length)
    -- Horizontal rules
    else if hruleRe line then
      (true, start_idx + 1)
    else
      (false, start_idx)
  else
    (false, start_idx)

/-- Characters of a stripped string come from the original string. -/
lemma mem_of_mem_pystrip {c : Char} {s : String} (h : c ∈ (pystrip s).data) :
    c ∈ s.data := by
  unfold pystrip at h
  simp only [List.mem_reverse] at h
  have h1 := (List.dropWhile_sublist pyIsSpace
    (l := (s.data.dropWhile pyIsSpace).reverse)).mem h
  rw [List.mem_reverse] at h1
  exact (List.dropWhile_sublist pyIsSpace (l := s.data)).mem h1

/-- `pycontainsChar` transfers from the stripped line to the raw line. -/
lemma pycontainsChar_of_strip {s : String} {c : Char}
    (h : pycontainsChar (pystrip s) c = true) : pycontainsChar s c = true := by
  unfold pycontainsChar at *
  simp only [List.any_eq_true, decide_eq_true_eq] at *
  obtain ⟨x, hx, hxc⟩ := h
  exact ⟨x, mem_of_mem_pystrip hx, hxc⟩

/-- When `is_low_quality_block` reports a block, the returned end index is
strictly greater than the start index: every skip branch advances. -/
lemma lowq_advances (lines : List String) (i : Nat)
    (hb : (is_low_quality_block lines i).1 = true) :
    i < (is_low_quality_block lines i).2 := by
  unfold is_low_quality_block at *
  by_cases h : i < lines.length
  case neg => rw [dif_neg h] at hb; simp at hb
  rw [dif_pos h] at hb ⊢
  generalize hline : pystrip (lines.get ⟨i, h⟩) = line at hb ⊢
  by_cases h1 : (pystartswith line "??? \"Transcript\"" ||
      pystartswith line "!!! \"Transcript\"") = true
  · rw [if_pos h1]; omega
  rw [if_neg h1] at hb ⊢
  by_cases h2 : (pycontainsChar line '|' &&
      (pycontainsChar line '-' || decide (3 ≤ pycountChar line '|'))) = true
  · rw [if_pos h2] at hb ⊢
    have hpipe : pycontainsChar (lines.get ⟨i, h⟩) '|' = true := by
      apply pycontainsChar_of_strip
      rw [hline]
      exact Bool.and_elim_left h2
    have hdrop : lines.drop i = lines.get ⟨i, h⟩ :: lines.drop (i + 1) := by
      rw [List.get_eq_getElem]
      exact List.drop_eq_getElem_cons h
    rw [hdrop]
    simp only [List.takeWhile_cons, hpipe, if_pos, List.length_cons]
    omega
  rw [if_neg h2] at hb ⊢
  by_cases h3 : (pystartswith line "<div" || pystartswith line "<iframe") = true
  · rw [if_pos h3] at hb ⊢
    dsimp only at hb ⊢
    cases hf : (lines.drop (i + 1)).findIdx?
        (fun l => pycontainsSub l ("</" ++ (if pycontainsSub line "div" = true then "div" else "iframe") ++ ">")) with
    | none => exact h
    | some j => show i < i + 1 + j + 1; omega
  rw [if_neg h3] at hb ⊢
  by_cases h4 : (pystartswith line "!!!" ||
      (pystartswith line "???" && pycontainsChar line '"')) = true
  · rw [if_pos h4]
    show i < i + 1 + _
    omega
  rw [if_neg h4] at hb ⊢
  by_cases h5 : hruleRe line = true
  · rw [if_pos h5]; omega
  · rw [if_neg h5] at hb; simp at hb

/-- A section as pushed to the result list of `extract_sections`. -/
structure SecRec where
  heading : Option String
  level : Nat
  parent_heading : Option String
  text : String
deriving DecidableEq, Repr

/-- The open section being accumulated (`current_section`). -/
structure CurSec where
  heading : Option String
  level : Nat
  paragraphs : List String
  parent_heading : Option String
deriving DecidableEq, Repr

/-- An entry of `heading_stack`. -/
structure HeadEntry where
  heading : String
  level : Nat
deriving DecidableEq, Repr

/-- Closing a section: pushed to the result list only when it has paragraphs
and its joined, stripped text is non-empty and longer than 20 characters. -/
def flushSec (cur : CurSec) : List SecRec :=
  if cur.paragraphs != [] then
    let text := pystrip (pyjoin "\n" cur.paragraphs)
    if text != "" && 20 < text.length then
      [⟨cur.heading, cur.level, cur.parent_heading, text⟩]
    else []
  else []

/-- The line-scanning loop of `extract_sections`, parameterized by the flush
function used when a section closes (the source inlines `flushSec`; the
parameter also allows the unfiltered candidate list to be defined over the
same scan).  The heading stack keeps its top at the head of the list.  The
`while i < len(lines)` loop is rendered with an explicit iteration budget
`fuel`; since every branch strictly increases `i` (`lowq_advances`), a budget
of `lines.length - i` iterations is exact, and `extractLoop_fuel_irrelevant`
below proves the budget is never exhausted. -/
def extractLoopF (flush : CurSec → List SecRec) (lines : List String) :
    Nat → Nat → CurSec → List HeadEntry → Bool → List SecRec →
    List SecRec × CurSec
  | 0, _, cur, _, _, secs => (secs, cur)
  | fuel + 1, i, cur, stack, inCode, secs =>
    if h : i < lines.length then
      let line := lines.get ⟨i, h⟩
      -- Toggle code block state; skip fence lines
      if pystartswith (pystrip line) "```" then
        extractLoopF flush lines fuel (i + 1) cur stack (!inCode) secs
      -- Skip lines inside code blocks
      else if inCode then
        extractLoopF flush lines fuel (i + 1) cur stack inCode secs
      else
        let r := is_low_quality_block lines i
        if r.1 then
          extractLoopF flush lines fuel r.2 cur stack inCode secs
        else
          match parseHeader line with
          | some (level, heading) =>
            -- Save previous section if it has content, then start a new one
            let secs' := secs ++ flush cur
            let stack' := stack.dropWhile (fun e => level ≤ e.level)
            let parent := stack'.head?.map (fun e => e.heading)
            extractLoopF flush lines fuel (i + 1)
              ⟨some heading, level, [], parent⟩
              (⟨heading, level⟩ :: stack') inCode secs'
          | none =>
            -- Accumulate paragraph content; collapse blank-line runs
            let cur' :=
              if pystrip line != "" then
                { cur with paragraphs := cur.paragraphs ++ [pystrip line] }
              else if cur.paragraphs != [] && cur.paragraphs.getLast? != some "" then
                { cur with paragraphs := cur.paragraphs ++ [""] }
              else cur
            extractLoopF flush lines fuel (i + 1) cur' stack inCode secs
    else
      (secs, cur)

/-- The iteration budget is irrelevant as long as it covers `lines.length - i`
iterations: since every branch strictly advances the line index, the scan
always leaves the loop through its `i ≥ lines.length` exit, never by running
out of budget.  This is the termination argument for the `while` loop. -/
lemma extractLoop_fuel_irrelevant (flush : CurSec → List SecRec)
    (lines : List String) :
    ∀ fuel fuel' i cur stack inCode secs,
      lines.length - i ≤ fuel → lines.length - i ≤ fuel' →
      extractLoopF flush lines fuel i cur stack inCode secs =
        extractLoopF flush lines fuel' i cur stack inCode secs := by
  intro fuel
  induction fuel using Nat.strong_induction_on with
  | _ fuel ih =>
    intro fuel' i cur stack inCode secs hf hf'
    cases fuel with
    | zero =>
      cases fuel' with
      | zero => rfl
      | succ f' =>
        have : ¬ i < lines.length := by omega
        rw [extractLoopF, extractLoopF, dif_neg this]
    | succ f =>
    cases fuel' with
    | zero =>
      have : ¬ i < lines.length := by omega
      rw [extractLoopF, extractLoopF, dif_neg this]
    | succ f' =>
      rw [extractLoopF, extractLoopF]
      by_cases h : i < lines.length
      · rw [dif_pos h, dif_pos h]
        have hstep : ∀ j (cur' : CurSec) stack' inCode' secs', i < j →
            extractLoopF flush lines f j cur' stack' inCode' secs' =
              extractLoopF flush lines f' j cur' stack' inCode' secs' := by
          intro j cur' stack' inCode' secs' hij
          have h1 : f < f + 1 := Nat.lt_succ_self f
          have h2 : lines.length - j ≤ f := by omega
          have h3 : lines.length - j ≤ f' := by omega
          exact ih f h1 f' j cur' stack' inCode' secs' h2 h3
        dsimp only
        by_cases hc : pystartswith (pystrip (lines.get ⟨i, h⟩)) "```" = true
        · rw [if_pos hc, if_pos hc]; apply hstep; omega
        · rw [if_neg hc, if_neg hc]
          by_cases hcode : inCode = true
          · rw [if_pos hcode, if_pos hcode]; apply hstep; omega
          · rw [if_neg hcode, if_neg hcode]
            by_cases hb : (is_low_quality_block lines i).1 = true
            · rw [if_pos hb, if_pos hb]
              apply hstep
              exact lowq_advances lines i hb
            · rw [if_neg hb, if_neg hb]
              cases parseHeader (lines.get ⟨i, h⟩) with
              | some lh => apply hstep; omega
              | none => apply hstep; omega
      · rw [dif_neg h, dif_neg h]

/-- `extract_sections(content, metadata)`: scan the lines, then save the
final still-open section under the same rule. -/
def extract_sections (content : String) (metadata : Metadata) : List SecRec :=
  let lines := pysplitLines content
  let r := extractLoopF flushSec lines lines.length 0 ⟨none, 0, [], none⟩ [] false []
  r.1 ++ flushSec r.2

/-! ## Content cleaning (`parse_frontmatter`'s regex substitutions) -/

/-- `re.sub(r"<[^>]+>", "", content)`: remove HTML tags.  At each `<`, a
maximal non-empty run of non-`>` characters followed by `>` is removed
(the character class matches newlines); otherwise the scan advances one
character, as the regex engine does after a failed match. -/
def cleanHtmlAux : List Char → List Char
  | [] => []
  | c :: rest =>
    if c = '<' then
      let run := rest.takeWhile (fun x => x != '>')
      let rest2 := rest.dropWhile (fun x => x != '>')
      match h2 : rest2 with
      | '>' :: rest3 =>
        if run.isEmpty then '<' :: cleanHtmlAux rest else cleanHtmlAux rest3
      | _ => '<' :: cleanHtmlAux rest
    else
      c :: cleanHtmlAux rest
termination_by l => l.length
decreasing_by
  · simp
  · have hd : rest2.length ≤ rest.length :=
      (List.dropWhile_sublist (fun x => x != '>') (l := rest)).length_le
    rw [h2] at hd
    simp only [List.length_cons] at hd ⊢
    omega
  · simp

/-- Locate the non-greedy `\]\(` of a link/image pattern: the first `]`
immediately followed by `(`, failing at a newline (`.` does not match
`\n`).  Returns its index. -/
def findBracketParen : List Char → Option Nat
  | ']' :: '(' :: _ => some 0
  | '\n' :: _ => none
  | _ :: rest => (findBracketParen rest).map (· + 1)
  | [] => none

/-- Locate the first occurrence of `c`, failing at a newline. -/
def findCharNoNl (c : Char) : List Char → Option Nat
  | [] => none
  | x :: rest =>
    if x = c then some 0
    else if x = '\n' then none
    else (findCharNoNl c rest).map (· + 1)

/-- For the characters following `[`, find the span of `.*?\]\(.*?\)`:
returns `(j, k)` where `j` is the index of the `]` (so the link text is the
first `j` characters) and `k` is the number of characters consumed through
the closing `)`. -/
def findLinkSpan (l : List Char) : Option (Nat × Nat) :=
  match findBracketParen l with
  | none => none
  | some j =>
    match findCharNoNl ')' (l.drop (j + 2)) with
    | none => none
    | some m => some (j, j + 2 + m + 1)

/-- `re.sub(r"!\[.*?\]\(.*?\)", "", content)`: remove images. -/
def cleanImagesAux : List Char → List Char
  | [] => []
  | '!' :: '[' :: rest =>
    (match findLinkSpan rest with
     | some (_, k) => cleanImagesAux (rest.drop k)
     | none => '!' :: cleanImagesAux ('[' :: rest))
  | c :: rest => c :: cleanImagesAux rest
termination_by l => l.length
decreasing_by
  · have := List.length_drop k rest
    simp only [List.length_cons]
    omega
  · simp [List.length_cons]
  · simp

/-- `re.sub(r"\[(.*?)\]\(.*?\)", r"\1", content)`: keep link text only. -/
def cleanLinksAux : List Char → List Char
  | [] => []
  | '[' :: rest =>
    (match findLinkSpan rest with
     | some (j, k) => rest.take j ++ cleanLinksAux (rest.drop k)
     | none => '[' :: cleanLinksAux rest)
  | c :: rest => c :: cleanLinksAux rest
termination_by l => l.length
decreasing_by
  · have := List.length_drop k rest
    simp only [List.length_cons]
    omega
  · simp
  · simp

/-- `parse_frontmatter(md_content)`: the external `frontmatter.loads` result
is supplied as `fm` (`none` = the library raised).  On success the returned
content is cleaned by the three regex substitutions; on failure the error is
logged and `({}, md_content)` is returned unchanged. -/
def parse_frontmatter (fm : Option (Metadata × String)) (md_content : String) :
    Metadata × String :=
  match fm with
  | some (metadata, content) =>
    (metadata, ⟨cleanLinksAux (cleanImagesAux (cleanHtmlAux content.data))⟩)
  | none => ([], md_content)

/-! ## Unit building: slug, URL, payload (`heading_to_slug`,
`build_docs_url`, the payload dict of `ingest_docs`) -/

/-- Word character for regex `\w` (ASCII fragment). -/
def pyIsWord (c : Char) : Bool :=
  c.isAlphanum || c = '_'

/-- `re.sub(r'[\s_]+', '-', s)`: collapse whitespace/underscore runs to a
single hyphen.  Iteration budget as in `replaceSubAux`: each step consumes
at least one character, so a budget of the input length never runs out. -/
def collapseSpaceUnderscore : Nat → List Char → List Char
  | _, [] => []
  | 0, l => l
  | fuel + 1, c :: rest =>
    if pyIsSpace c || c = '_' then
      '-' :: collapseSpaceUnderscore fuel (rest.dropWhile (fun x => pyIsSpace x || x = '_'))
    else
      c :: collapseSpaceUnderscore fuel rest

/-- `heading_to_slug(heading)`: lower-case; strip non-word, non-space,
non-hyphen characters; collapse space/underscore runs to hyphens; trim edge
hyphens.  A falsy (empty) heading yields `None`. -/
def heading_to_slug (heading : String) : Option String :=
  if heading = "" then none
  else
    let s1 := heading.data.map Char.toLower
    let s2 := s1.filter (fun c => pyIsWord c || pyIsSpace c || c = '-')
    let s3 := collapseSpaceUnderscore s2.length s2
    let s4 := ((s3.dropWhile (fun c => c = '-')).reverse.dropWhile (fun c => c = '-')).reverse
    some ⟨s4⟩

/-- `build_docs_url(md_file, frontmatter_metadata, section_slug)` over the
document's path relative to the docs root (documents are identified by that
relative path in this model, so the `relative_to` call cannot raise and the
logged-warning fallback branch is unreachable).  Blog posts with a date and
slug get date-based URLs; other documents get path-based URLs; a non-empty
section slug is appended as an anchor. -/
def build_docs_url (path : String) (metadata : Metadata)
    (section_slug : Option String) : String :=
  let anchor :=
    match section_slug with
    | some sl => if sl != "" then "#" ++ sl else ""
    | none => ""
  let regularUrl := "https://quix.io/docs/" ++ pyreplaceSub path ".md" ".html" ++ anchor
  if pycontainsSub path "blog/posts" && !metadata.isEmpty then
    match mdGet metadata "date", mdGet metadata "slug" with
    | some date, some slug =>
      if date != "" && slug != "" then
        "https://quix.io/docs/blog/" ++ pyreplaceChar date '-' '/' ++ "/" ++
          slug ++ ".html" ++ anchor
      else regularUrl
    | _, _ => regularUrl
  else regularUrl

/-- A source document, identified by its path relative to the docs root,
with its raw content and the (external) frontmatter library's result for
that content (`none` = `frontmatter.loads` raised). -/
structure Doc where
  path : String
  content : String
  fmLoads : Option (Metadata × String)
deriving DecidableEq, Repr

/-- The metadata payload attached to each indexed point. -/
structure Payload where
  title : String
  subtitle : Option String
  description : Option String
  text : String
  url : String
  heading : Option String
  slug : Option String
  path : String
deriving DecidableEq, Repr

/-- An indexable record (`PointStruct`): `uuid.uuid4()` is modelled by a
fresh-identifier supply, so `id` is a natural number distinct across calls. -/
structure Pt where
  id : Nat
  vector : List Int
  payload : Payload
deriving DecidableEq, Repr

/-- Build the point for one section (`for idx, section in enumerate(...)`
loop body): slug, URL, payload, embedding, fresh id. -/
def mkPt (encode : String → List Int) (path : String) (metadata : Metadata)
    (doc_title doc_description : String) (id : Nat) (s : SecRec) : Pt :=
  let section_heading := s.heading
  let section_text := s.text
  let section_slug : Option String :=
    match section_heading with
    | some hd => if hd != "" then heading_to_slug hd else none
    | none => none
  let url := build_docs_url path metadata section_slug
  { id := id
    vector := encode section_text
    payload :=
      { title := doc_title
        subtitle := section_heading
        description := if doc_description != "" then some doc_description else none
        text := section_text
        url := url
        heading := section_heading
        slug := section_slug
        path := path } }

/-- Points built for a list of sections, threading the fresh-id supply. -/
def buildPts (encode : String → List Int) (path : String) (metadata : Metadata)
    (doc_title doc_description : String) : Nat → List SecRec → List Pt
  | _, [] => []
  | id, s :: ss =>
    mkPt encode path metadata doc_title doc_description id s ::
      buildPts encode path metadata doc_title doc_description (id + 1) ss

/-- All points built while processing one document: read, parse frontmatter,
derive title/description, extract sections, build one point per section. -/
def docPoints (encode : String → List Int) (d : Doc) (idStart : Nat) : List Pt :=
  let pf := parse_frontmatter d.fmLoads d.content
  let metadata := pf.1
  let clean_content := pf.2
  let doc_title :=
    (mdGet metadata "title").getD (pytitle (pyreplaceChar (pathStem d.path) '-' ' '))
  let doc_description := (mdGet metadata "description").getD ""
  let sections := extract_sections clean_content metadata
  buildPts encode d.path metadata doc_title doc_description idStart sections

/-! ## The run loop of `ingest_docs` -/

/-- Run state of `ingest_docs`: the pending `points` list, the log of
successful upserts (`calls`) and of failed upsert attempts (`failedCalls`),
the fresh-id supply, the number of upsert attempts made (`callIdx`, the index
the success oracle is consulted at), and the two counters. -/
structure RunSt where
  points : List Pt
  calls : List (List Pt)
  failedCalls : List (List Pt)
  nextId : Nat
  callIdx : Nat
  totalSections : Nat
  filesProcessed : Nat
deriving DecidableEq, Repr, Inhabited

/-- The body of the per-document `try`: process the document, then flush a
batch when at least 100 points have accumulated.  A failed upsert raises
inside the `try`, so the `except` catches it, logs, and continues: the
pending points are NOT cleared (`points = []` is only reached on success)
and the loop moves to the next document.  In this model the upsert is the
only operation inside the `try` that can raise. -/
def processDoc (encode : String → List Int) (oracle : Nat → Bool)
    (st : RunSt) (d : Doc) : RunSt :=
  let pts := docPoints encode d st.nextId
  let st1 : RunSt :=
    { st with
      points := st.points ++ pts
      nextId := st.nextId + pts.length
      totalSections := st.totalSections + pts.length
      filesProcessed := st.filesProcessed + 1 }
  if 100 ≤ st1.points.length then
    if oracle st1.callIdx then
      { st1 with calls := st1.calls ++ [st1.points], points := [], callIdx := st1.callIdx + 1 }
    else
      { st1 with failedCalls := st1.failedCalls ++ [st1.points], callIdx := st1.callIdx + 1 }
  else st1

/-- The document loop of `ingest_docs` from a given start state. -/
def ingestLoop (encode : String → List Int) (oracle : Nat → Bool)
    (docs : List Doc) (st : RunSt) : RunSt :=
  docs.foldl (processDoc encode oracle) st

/-- Initial run state with the given fresh-id supply position. -/
def initSt (idStart : Nat) : RunSt :=
  ⟨[], [], [], idStart, 0, 0, 0⟩

/-- `ingest_docs()`: delete/recreate the collection (external, always
succeeds in this model), loop over the documents, then upsert the remaining
points.  A failure of this final upsert is outside the per-document `try`
and propagates to the caller as a fatal error. -/
def ingest_docs (docs : List Doc) (encode : String → List Int)
    (oracle : Nat → Bool) (idStart : Nat) : Except String RunSt :=
  let stL := ingestLoop encode oracle docs (initSt idStart)
  if stL.points != [] then
    if oracle stL.callIdx then
      Except.ok { stL with calls := stL.calls ++ [stL.points], points := [],
                           callIdx := stL.callIdx + 1 }
    else
      Except.error "final upsert failed"
  else
    Except.ok stL

/-! ## The minimum-length filter characterization of the segmenter -/

/-- The keep-condition of the minimum-length filter: non-empty stripped body
text of more than 20 characters. -/
def keepP (s : SecRec) : Bool :=
  s.text != "" && 20 < s.text.length

/-- Closing a section unconditionally: the candidate record for the open
section, before the minimum-length filter (specification-side notion of the
"sections" of a document, used to compare against what the code emits). -/
def flushAll (cur : CurSec) : List SecRec :=
  [⟨cur.heading, cur.level, cur.parent_heading, pystrip (pyjoin "\n" cur.paragraphs)⟩]

/-- All candidate sections of a document: the same scan as
`extract_sections`, but every closed section is kept. -/
def candidateSections (content : String) (metadata : Metadata) : List SecRec :=
  let lines := pysplitLines content
  let r := extractLoopF flushAll lines lines.length 0 ⟨none, 0, [], none⟩ [] false []
  r.1 ++ flushAll r.2

/-- The filtered flush is the unconditional flush composed with the
minimum-length filter. -/
lemma flushSec_eq_filter (cur : CurSec) :
    flushSec cur = (flushAll cur).filter keepP := by
  unfold flushSec flushAll keepP
  by_cases hp : cur.paragraphs = []
  · rw [hp]
    have ht : pystrip (pyjoin "\n" ([] : List String)) = "" := rfl
    simp [ht, List.filter]
  · have hp' : (cur.paragraphs != []) = true := by
      simpa using hp
    rw [if_pos hp']
    dsimp only [List.filter]
    by_cases hk : (pystrip (pyjoin "\n" cur.paragraphs) != "" &&
        decide (20 < (pystrip (pyjoin "\n" cur.paragraphs)).length)) = true
    · rw [if_pos hk, hk]
    · rw [if_neg hk]
      simp only [Bool.not_eq_true] at hk
      rw [hk]

/-- The scan with the filtered flush computes the filter of the scan with
the unconditional flush: same final open section, and the emitted list is
the candidate list filtered by the minimum-length condition. -/
lemma extractLoop_filter (lines : List String) :
    ∀ fuel i cur stack inCode secsC,
      extractLoopF flushSec lines fuel i cur stack inCode (secsC.filter keepP) =
        ((extractLoopF flushAll lines fuel i cur stack inCode secsC).1.filter keepP,
         (extractLoopF flushAll lines fuel i cur stack inCode secsC).2) := by
  intro fuel
  induction fuel with
  | zero => intro i cur stack inCode secsC; rw [extractLoopF, extractLoopF]
  | succ f ihf =>
    intro i cur stack inCode secsC
    rw [extractLoopF, extractLoopF]
    by_cases h : i < lines.length
    · rw [dif_pos h, dif_pos h]
      dsimp only
      by_cases hc : pystartswith (pystrip (lines.get ⟨i, h⟩)) "```" = true
      · rw [if_pos hc, if_pos hc]; exact ihf _ _ _ _ _
      · rw [if_neg hc, if_neg hc]
        by_cases hcode : inCode = true
        · rw [if_pos hcode, if_pos hcode]; exact ihf _ _ _ _ _
        · rw [if_neg hcode, if_neg hcode]
          by_cases hb : (is_low_quality_block lines i).1 = true
          · rw [if_pos hb, if_pos hb]; exact ihf _ _ _ _ _
          · rw [if_neg hb, if_neg hb]
            cases parseHeader (lines.get ⟨i, h⟩) with
            | some lh =>
              obtain ⟨level, heading⟩ := lh
              dsimp only
              rw [flushSec_eq_filter, ← List.filter_append]
              exact ihf _ _ _ _ _
            | none => exact ihf _ _ _ _ _
    · rw [dif_neg h, dif_neg h]

/-- `extract_sections` emits exactly the candidate sections whose stripped
body text is non-empty and longer than 20 characters. -/
lemma extract_sections_eq_filter (content : String) (metadata : Metadata) :
    extract_sections content metadata =
      (candidateSections content metadata).filter keepP := by
  unfold extract_sections candidateSections
  dsimp only
  have h := extractLoop_filter (pysplitLines content) (pysplitLines content).length
    0 ⟨none, 0, [], none⟩ [] false []
  rw [show ([] : List SecRec).filter keepP = [] from rfl] at h
  rw [h]
  rw [flushSec_eq_filter, List.filter_append]

/-! ## The heading-hierarchy invariant -/

/-- The heading lines of a list of lines, as `(level, heading)` pairs. -/
def headerLines (lines : List String) : List (Nat × String) :=
  lines.filterMap parseHeader

/-- The parent invariant for an emitted section: its parent heading is null
or the heading of some heading line of the document with strictly smaller
level. -/
def parentOk (lines : List String) (s : SecRec) : Prop :=
  s.parent_heading = none ∨
    ∃ p ∈ headerLines lines, some p.2 = s.parent_heading ∧ p.1 < s.level

/-- The same invariant for the open section. -/
def curOk (lines : List String) (cur : CurSec) : Prop :=
  cur.parent_heading = none ∨
    ∃ p ∈ headerLines lines, some p.2 = cur.parent_heading ∧ p.1 < cur.level

/-- Every heading-stack entry is a heading line of the document. -/
def stackOk (lines : List String) (stack : List HeadEntry) : Prop :=
  ∀ e ∈ stack, (e.level, e.heading) ∈ headerLines lines

/-- The head surviving a `dropWhile` falsifies the dropped predicate. -/
lemma dropWhile_head?_not {α : Type} (p : α → Bool) :
    ∀ (l : List α) (e : α), (l.dropWhile p).head? = some e → p e = false := by
  intro l
  induction l with
  | nil => intro e he; simp [List.dropWhile] at he
  | cons a as ih =>
    intro e he
    rw [List.dropWhile_cons] at he
    by_cases hp : p a = true
    · rw [if_pos hp] at he
      exact ih e he
    · rw [if_neg hp] at he
      simp only [List.head?_cons, Option.some.injEq] at he
      rw [← he]
      simpa using hp

/-- Sections emitted by a flush carry the open section's parent and level. -/
lemma flushSec_fields {cur : CurSec} {s : SecRec} (hs : s ∈ flushSec cur) :
    s.parent_heading = cur.parent_heading ∧ s.level = cur.level := by
  unfold flushSec at hs
  by_cases hp : (cur.paragraphs != []) = true
  · rw [if_pos hp] at hs
    by_cases hk : (pystrip (pyjoin "\n" cur.paragraphs) != "" &&
        decide (20 < (pystrip (pyjoin "\n" cur.paragraphs)).length)) = true
    · rw [if_pos hk] at hs
      simp only [List.mem_singleton] at hs
      rw [hs]
      exact ⟨rfl, rfl⟩
    · rw [if_neg hk] at hs
      simp at hs
  · rw [if_neg hp] at hs
    simp at hs

/-- Invariant preservation through the scan: starting from a stack of
document heading lines, an open section whose parent is a lower-level
document heading, and emitted sections that all satisfy the parent
invariant, the scan's emitted sections and final open section satisfy it
too. -/
lemma extractLoop_parentOk (lines : List String) :
    ∀ fuel i cur stack inCode secs,
      stackOk lines stack → curOk lines cur → (∀ s ∈ secs, parentOk lines s) →
      (∀ s ∈ (extractLoopF flushSec lines fuel i cur stack inCode secs).1,
        parentOk lines s) ∧
      curOk lines (extractLoopF flushSec lines fuel i cur stack inCode secs).2 := by
  intro fuel
  induction fuel with
  | zero =>
    intro i cur stack inCode secs _ hcur hsecs
    rw [extractLoopF]
    exact ⟨hsecs, hcur⟩
  | succ f ihf =>
    intro i cur stack inCode secs hstack hcur hsecs
    rw [extractLoopF]
    by_cases h : i < lines.length
    · rw [dif_pos h]
      dsimp only
      by_cases hc : pystartswith (pystrip (lines.get ⟨i, h⟩)) "```" = true
      · rw [if_pos hc]; exact ihf _ _ _ _ _ hstack hcur hsecs
      · rw [if_neg hc]
        by_cases hcode : inCode = true
        · rw [if_pos hcode]; exact ihf _ _ _ _ _ hstack hcur hsecs
        · rw [if_neg hcode]
          by_cases hb : (is_low_quality_block lines i).1 = true
          · rw [if_pos hb]; exact ihf _ _ _ _ _ hstack hcur hsecs
          · rw [if_neg hb]
            cases hph : parseHeader (lines.get ⟨i, h⟩) with
            | some lh =>
              obtain ⟨level, heading⟩ := lh
              dsimp only
              have hmem : (level, heading) ∈ headerLines lines := by
                unfold headerLines
                rw [List.mem_filterMap]
                exact ⟨lines.get ⟨i, h⟩, List.get_mem lines i h, hph⟩
              have hstack' : stackOk lines
                  (stack.dropWhile (fun e => decide (level ≤ e.level))) := by
                intro e he
                exact hstack e ((List.dropWhile_sublist _).mem he)
              apply ihf
              · intro e he
                rcases List.mem_cons.mp he with he | he
                · rw [he]; exact hmem
                · exact hstack' e he
              · cases hhd : (stack.dropWhile
                    (fun e => decide (level ≤ e.level))).head? with
                | none =>
                  left
                  simp [hhd]
                | some e =>
                  right
                  refine ⟨(e.level, e.heading), ?_, ?_, ?_⟩
                  · exact hstack' e (List.mem_of_mem_head? hhd)
                  · simp [hhd]
                  · have := dropWhile_head?_not _ stack e hhd
                    simp only [decide_eq_false_iff_not, not_le] at this
                    exact this
              · intro s hs
                rcases List.mem_append.mp hs with hs | hs
                · exact hsecs s hs
                · obtain ⟨hpar, hlev⟩ := flushSec_fields hs
                  unfold parentOk
                  rw [hpar, hlev]
                  exact hcur
            | none =>
              apply ihf _ _ _ _ _ hstack _ hsecs
              unfold curOk
              by_cases hnb : (pystrip (lines.get ⟨i, h⟩) != "") = true
              · rw [if_pos hnb]; exact hcur
              · rw [if_neg hnb]
                by_cases hlast : (cur.paragraphs != [] &&
                    cur.paragraphs.getLast? != some "") = true
                · rw [if_pos hlast]; exact hcur
                · rw [if_neg hlast]; exact hcur
    · rw [dif_neg h]
      exact ⟨hsecs, hcur⟩

/-- The parent invariant holds of every section `extract_sections` emits. -/
lemma extract_sections_parentOk (content : String) (metadata : Metadata) :
    ∀ s ∈ extract_sections content metadata, parentOk (pysplitLines content) s := by
  intro s hs
  unfold extract_sections at hs
  dsimp only at hs
  have h := extractLoop_parentOk (pysplitLines content) (pysplitLines content).length
    0 ⟨none, 0, [], none⟩ [] false []
    (by intro e he; simp at he)
    (Or.inl rfl)
    (by intro t ht; simp at ht)
  rcases List.mem_append.mp hs with hs | hs
  · exact h.1 s hs
  · obtain ⟨hpar, hlev⟩ := flushSec_fields hs
    unfold parentOk
    rw [hpar, hlev]
    exact h.2

/-! ## Run-level bookkeeping lemmas -/

/-- The records the run would build for the given documents, in document
order, threading the fresh-id supply (specification-side notion of "every
built record", compared against what the batched writes deliver). -/
def builtRecords (encode : String → List Int) : Nat → List Doc → List Pt
  | _, [] => []
  | idStart, d :: ds =>
    docPoints encode d idStart ++
      builtRecords encode (idStart + (docPoints encode d idStart).length) ds

lemma buildPts_length (e : String → List Int) (p : String) (m : Metadata)
    (t dd : String) : ∀ (secs : List SecRec) (id : Nat),
    (buildPts e p m t dd id secs).length = secs.length := by
  intro secs
  induction secs with
  | nil => intro id; rfl
  | cons s ss ih => intro id; simp [buildPts, ih]

lemma buildPts_ids (e : String → List Int) (p : String) (m : Metadata)
    (t dd : String) : ∀ (secs : List SecRec) (id : Nat),
    (buildPts e p m t dd id secs).map (fun pt => pt.id) =
      List.range' id secs.length := by
  intro secs
  induction secs with
  | nil => intro id; rfl
  | cons s ss ih =>
    intro id
    simp only [buildPts, List.map_cons, List.length_cons, List.range'_succ, ih]
    rfl

lemma docPoints_ids (e : String → List Int) (d : Doc) (i : Nat) :
    (docPoints e d i).map (fun pt => pt.id) =
      List.range' i (docPoints e d i).length := by
  unfold docPoints
  rw [buildPts_ids, buildPts_length]

lemma builtRecords_ids (e : String → List Int) :
    ∀ (docs : List Doc) (s : Nat),
    (builtRecords e s docs).map (fun pt => pt.id) =
      List.range' s (builtRecords e s docs).length := by
  intro docs
  induction docs with
  | nil => intro s; rfl
  | cons d ds ih =>
    intro s
    rw [builtRecords]
    rw [List.map_append, List.length_append, docPoints_ids, ih]
    rw [List.range'_append_1]
    rw [Nat.add_comm]

lemma processDoc_counters (encode : String → List Int) (oracle : Nat → Bool)
    (st : RunSt) (d : Doc) :
    (processDoc encode oracle st d).nextId =
        st.nextId + (docPoints encode d st.nextId).length ∧
    (processDoc encode oracle st d).totalSections =
        st.totalSections + (docPoints encode d st.nextId).length ∧
    (processDoc encode oracle st d).filesProcessed = st.filesProcessed + 1 := by
  unfold processDoc
  dsimp only
  by_cases h100 : 100 ≤ (st.points ++ docPoints encode d st.nextId).length
  · rw [if_pos h100]
    by_cases ho : oracle st.callIdx = true
    · rw [if_pos ho]; exact ⟨rfl, rfl, rfl⟩
    · rw [if_neg ho]; exact ⟨rfl, rfl, rfl⟩
  · rw [if_neg h100]; exact ⟨rfl, rfl, rfl⟩

lemma processDoc_ok_facts (encode : String → List Int) (st : RunSt) (d : Doc) :
    (processDoc encode (fun _ => true) st d).calls.join ++
        (processDoc encode (fun _ => true) st d).points =
      (st.calls.join ++ st.points) ++ docPoints encode d st.nextId ∧
    (processDoc encode (fun _ => true) st d).failedCalls = st.failedCalls ∧
    ∀ b ∈ (processDoc encode (fun _ => true) st d).calls,
      b ∈ st.calls ∨ 100 ≤ b.length := by
  unfold processDoc
  dsimp only
  by_cases h100 : 100 ≤ (st.points ++ docPoints encode d st.nextId).length
  · rw [if_pos h100]
    refine ⟨?_, rfl, ?_⟩
    · simp [List.join_append, List.append_assoc]
    · intro b hb
      rcases List.mem_append.mp hb with hb | hb
      · exact Or.inl hb
      · right
        simp only [List.mem_singleton] at hb
        rw [hb]
        exact h100
  · rw [if_neg h100]
    exact ⟨by simp [List.append_assoc], rfl, fun b hb => Or.inl hb⟩

/-- Loop invariant for a run whose upserts all succeed: the successful calls
followed by the pending points are exactly the previously delivered records
followed by all records built for the processed documents; the id supply,
section and file counters advance accordingly; nothing is added to the
failed-call log; and every batch added to the call log has at least 100
records. -/
lemma ingestLoop_ok_inv (encode : String → List Int) :
    ∀ (docs : List Doc) (st : RunSt),
    (ingestLoop encode (fun _ => true) docs st).calls.join ++
        (ingestLoop encode (fun _ => true) docs st).points =
      (st.calls.join ++ st.points) ++ builtRecords encode st.nextId docs ∧
    (ingestLoop encode (fun _ => true) docs st).nextId =
      st.nextId + (builtRecords encode st.nextId docs).length ∧
    (ingestLoop encode (fun _ => true) docs st).totalSections =
      st.totalSections + (builtRecords encode st.nextId docs).length ∧
    (ingestLoop encode (fun _ => true) docs st).failedCalls = st.failedCalls ∧
    (ingestLoop encode (fun _ => true) docs st).filesProcessed =
      st.filesProcessed + docs.length ∧
    ∀ b ∈ (ingestLoop encode (fun _ => true) docs st).calls,
      b ∈ st.calls ∨ 100 ≤ b.length := by
  intro docs
  induction docs with
  | nil =>
    intro st
    refine ⟨by simp [ingestLoop, builtRecords], ?_, ?_, rfl, rfl, ?_⟩
    · simp [ingestLoop, builtRecords]
    · simp [ingestLoop, builtRecords]
    · intro b hb; exact Or.inl hb
  | cons d ds ih =>
    intro st
    have hstep : ingestLoop encode (fun _ => true) (d :: ds) st =
        ingestLoop encode (fun _ => true) ds (processDoc encode (fun _ => true) st d) := rfl
    obtain ⟨hj, hfail, hcallmem⟩ := processDoc_ok_facts encode st d
    obtain ⟨hnext, htot, hfiles⟩ := processDoc_counters encode (fun _ => true) st d
    obtain ⟨ihj, ihnext, ihtot, ihfail, ihfiles, ihcalls⟩ :=
      ih (processDoc encode (fun _ => true) st d)
    have hbuilt : builtRecords encode st.nextId (d :: ds) =
        docPoints encode d st.nextId ++
          builtRecords encode (st.nextId + (docPoints encode d st.nextId).length) ds := rfl
    rw [hstep]
    refine ⟨?_, ?_, ?_, ?_, ?_, ?_⟩
    · rw [ihj, hj, hbuilt, hnext, List.append_assoc]
    · rw [ihnext, hnext, hbuilt, List.length_append]
      omega
    · rw [ihtot, htot, hnext, hbuilt, List.length_append]
      omega
    · rw [ihfail, hfail]
    · rw [ihfiles, hfiles, List.length_cons]
      omega
    · intro b hb
      rcases ihcalls b hb with hbc | hbc
      · exact hcallmem b hbc
      · exact Or.inr hbc

/-! ## Identity erasure: runs from different id-supply states -/

/-- A record with its identity erased: embedding vector and payload only. -/
def erasePt (pt : Pt) : List Int × Payload :=
  (pt.vector, pt.payload)

/-- A run state with all record identities erased. -/
def eraseSt (st : RunSt) :
    List (List Int × Payload) × List (List (List Int × Payload)) ×
      List (List (List Int × Payload)) × Nat × Nat × Nat :=
  (st.points.map erasePt, st.calls.map (List.map erasePt),
   st.failedCalls.map (List.map erasePt), st.callIdx, st.totalSections,
   st.filesProcessed)

lemma buildPts_erase (e : String → List Int) (p : String) (m : Metadata)
    (t dd : String) : ∀ (secs : List SecRec) (a b : Nat),
    (buildPts e p m t dd a secs).map erasePt =
      (buildPts e p m t dd b secs).map erasePt := by
  intro secs
  induction secs with
  | nil => intro a b; rfl
  | cons s ss ih =>
    intro a b
    simp only [buildPts, List.map_cons]
    rw [ih (a + 1) (b + 1)]
    rfl

lemma docPoints_erase (e : String → List Int) (d : Doc) (a b : Nat) :
    (docPoints e d a).map erasePt = (docPoints e d b).map erasePt := by
  unfold docPoints
  exact buildPts_erase e d.path _ _ _ _ a b

lemma processDoc_erase (e : String → List Int) (oracle : Nat → Bool) (d : Doc)
    {st1 st2 : RunSt} (h : eraseSt st1 = eraseSt st2) :
    eraseSt (processDoc e oracle st1 d) = eraseSt (processDoc e oracle st2 d) := by
  unfold eraseSt at h
  simp only [Prod.mk.injEq] at h
  obtain ⟨hpts, hcalls, hfail, hcix, htot, hfiles⟩ := h
  have hdp : (docPoints e d st1.nextId).map erasePt =
      (docPoints e d st2.nextId).map erasePt := docPoints_erase e d _ _
  have hlen : (docPoints e d st1.nextId).length = (docPoints e d st2.nextId).length := by
    have := congrArg List.length hdp
    simpa using this
  have hplen : st1.points.length = st2.points.length := by
    have := congrArg List.length hpts
    simpa using this
  unfold processDoc
  dsimp only
  have hcond : (100 ≤ (st1.points ++ docPoints e d st1.nextId).length) =
      (100 ≤ (st2.points ++ docPoints e d st2.nextId).length) := by
    rw [List.length_append, List.length_append, hplen, hlen]
  by_cases h100 : 100 ≤ (st1.points ++ docPoints e d st1.nextId).length
  · have h100' : 100 ≤ (st2.points ++ docPoints e d st2.nextId).length := hcond ▸ h100
    rw [if_pos h100, if_pos h100', hcix]
    by_cases ho : oracle st2.callIdx = true
    · rw [if_pos ho, if_pos ho]
      simp [eraseSt, List.map_append, hpts, hdp, hcalls, hfail, hcix, htot,
        hfiles, hlen]
    · rw [if_neg ho, if_neg ho]
      simp [eraseSt, List.map_append, hpts, hdp, hcalls, hfail, hcix, htot,
        hfiles, hlen]
  · have h100' : ¬ 100 ≤ (st2.points ++ docPoints e d st2.nextId).length := hcond ▸ h100
    rw [if_neg h100, if_neg h100']
    simp [eraseSt, List.map_append, hpts, hdp, hcalls, hfail, hcix, htot,
      hfiles, hlen]

lemma ingestLoop_erase (e : String → List Int) (oracle : Nat → Bool) :
    ∀ (docs : List Doc) {st1 st2 : RunSt}, eraseSt st1 = eraseSt st2 →
    eraseSt (ingestLoop e oracle docs st1) = eraseSt (ingestLoop e oracle docs st2) := by
  intro docs
  induction docs with
  | nil => intro st1 st2 h; exact h
  | cons d ds ih =>
    intro st1 st2 h
    exact ih (processDoc_erase e oracle d h)

/-- Master characterization of a run whose upserts all succeed: the run
completes, the successful calls deliver exactly the built records in order,
every call except possibly the last carries at least 100 records, the final
pending batch is flushed, and the counters and id supply advance by the
number of built records. -/
lemma ingest_docs_ok (e : String → List Int) (docs : List Doc) (s : Nat) :
    ∃ r, ingest_docs docs e (fun _ => true) s = Except.ok r ∧
      r.calls.join = builtRecords e s docs ∧
      r.points = [] ∧
      r.totalSections = (builtRecords e s docs).length ∧
      r.filesProcessed = docs.length ∧
      r.nextId = s + (builtRecords e s docs).length ∧
      r.failedCalls = [] ∧
      (∀ b ∈ r.calls.dropLast, 100 ≤ b.length) := by
  obtain ⟨hj, hnext, htot, hfail, hfiles, hcalls⟩ :=
    ingestLoop_ok_inv e docs (initSt s)
  have hinit_next : (initSt s).nextId = s := rfl
  rw [hinit_next] at hj hnext htot
  have hjoin_nil : (initSt s).calls.join ++ (initSt s).points = [] := rfl
  rw [show ((initSt s).calls.join ++ (initSt s).points) ++ builtRecords e s docs
      = builtRecords e s docs from by rw [hjoin_nil]; exact List.nil_append _] at hj
  have hcalls0 : (initSt s).calls = [] := rfl
  have htot' : (ingestLoop e (fun _ => true) docs (initSt s)).totalSections =
      (builtRecords e s docs).length := by
    rw [htot]
    show 0 + _ = _
    exact Nat.zero_add _
  have hfiles' : (ingestLoop e (fun _ => true) docs (initSt s)).filesProcessed =
      docs.length := by
    rw [hfiles]
    show 0 + _ = _
    exact Nat.zero_add _
  rw [show (initSt s).failedCalls = [] from rfl] at hfail
  unfold ingest_docs
  by_cases hne : ((ingestLoop e (fun _ => true) docs (initSt s)).points != []) = true
  · rw [if_pos hne, if_pos rfl]
    refine ⟨_, rfl, ?_, rfl, ?_, hfiles', ?_, hfail, ?_⟩
    · dsimp only
      have : ∀ (L : List (List Pt)) (P : List Pt), (L ++ [P]).join = L.join ++ P := by
        intro L P; simp
      rw [this]
      exact hj
    · exact htot'
    · exact hnext
    · dsimp only
      rw [List.dropLast_concat]
      intro b hb
      rcases hcalls b hb with hb' | hb'
      · rw [hcalls0] at hb'; simp at hb'
      · exact hb'
  · rw [if_neg hne]
    simp only [bne_iff_ne, ne_eq, Decidable.not_not] at hne
    refine ⟨_, rfl, ?_, hne, htot', hfiles', hnext, hfail, ?_⟩
    · rw [hne, List.append_nil] at hj
      exact hj
    · intro b hb
      rcases hcalls b ((List.dropLast_sublist _).mem hb) with hb' | hb'
      · rw [hcalls0] at hb'; simp at hb'
      · exact hb'

/-- With malformed front-matter the parse falls back to empty metadata and
the raw content, so the document is segmented from its raw content. -/
lemma docPoints_fm_none (e : String → List Int) (d : Doc) (i : Nat)
    (hfm : d.fmLoads = none) :
    docPoints e d i =
      buildPts e d.path []
        (pytitle (pyreplaceChar (pathStem d.path) '-' ' ')) "" i
        (extract_sections d.content []) := by
  unfold docPoints
  rw [hfm]
  rfl

lemma docPoints_fm_none_length (e : String → List Int) (d : Doc) (i : Nat)
    (hfm : d.fmLoads = none) :
    (docPoints e d i).length = (extract_sections d.content []).length := by
  rw [docPoints_fm_none e d i hfm, buildPts_length]

/-! ## Concrete fixtures for witnesses and counterexamples -/

/-- A trivial embedding collaborator. -/
def encStub : String → List Int := fun _ => []

/-- A one-section document with well-formed (absent) front-matter. -/
def docA : Doc :=
  ⟨"guide/intro.md", "# H\nThis is body text longer than twenty chars.", none⟩

/-- A non-empty document whose only candidate section is below the minimum
length, so no section survives filtering. -/
def shortDoc : Doc := ⟨"short.md", "hi", none⟩

/-- A document whose front-matter parsing raises (`fmLoads = none`) but whose
raw content still yields one section. -/
def noFmDoc : Doc :=
  ⟨"nofm.md", "This is body text longer than twenty chars.", none⟩

/-- A source tree of 100 documents: 99 one-section documents followed by a
two-section document, so the first flush is triggered with 101 accumulated
records. -/
def manyDocs : List Doc :=
  ((List.range 99).map (fun k =>
    ⟨"d" ++ toString k ++ ".md", "# h\naaaaaaaaaaaaaaaaaaaaa", none⟩)) ++
  [⟨"last.md", "# h\naaaaaaaaaaaaaaaaaaaaa\n# h\naaaaaaaaaaaaaaaaaaaaa", none⟩]

/-- The state of the first all-success run over `[docA]`. -/
def runA0 : RunSt :=
  ((ingest_docs [docA] encStub (fun _ => true) 0).toOption).getD default

/-- The state of the second all-success run over `[docA]`, with the fresh-id
supply continued from the first run. -/
def runA1 : RunSt :=
  ((ingest_docs [docA] encStub (fun _ => true) runA0.nextId).toOption).getD default

/-- A line whose stripped form opens or closes a fenced code block. -/
def fenceLine (l : String) : Bool := pystartswith (pystrip l) "```"

/-- Line `k` lies strictly inside a fenced code block: an odd number of fence
delimiter lines precede it and it is not itself a delimiter. -/
def strictlyInsideFence (lines : List String) (k : Nat) : Bool :=
  ((lines.take k).countP fenceLine) % 2 == 1 && !(fenceLine (lines.getD k ""))

/-- A document in which a table block is immediately followed by a fence
opener that itself contains a pipe: the table skip consumes the opener, so
the scanner's code-block state misses it. -/
def fencedTableContent : String :=
  "|-|\n``` |\nthis secret line is well over twenty chars\n```"

/-! ## Claims -/

/-- Claim C10 (confirmed): the segmenter terminates on every finite input.
Whenever `is_low_quality_block` reports a block it returns an end index
strictly greater than the start index, and every other branch advances the
line index by one; hence the scan's iteration budget of `lines.length - i`
iterations is never exhausted — the result of `extractLoopF` is the same for
every sufficient budget, i.e. the `while` loop always exits through its
`i ≥ len(lines)` test. -/
theorem segmenter_scan_terminates (lines : List String) (i : Nat) :
    ((is_low_quality_block lines i).1 = true →
      i < (is_low_quality_block lines i).2) ∧
    (∀ (flush : CurSec → List SecRec) (fuel fuel' : Nat) (cur : CurSec)
        (stack : List HeadEntry) (inCode : Bool) (secs : List SecRec),
      lines.length - i ≤ fuel → lines.length - i ≤ fuel' →
      extractLoopF flush lines fuel i cur stack inCode secs =
        extractLoopF flush lines fuel' i cur stack inCode secs) :=
  ⟨lowq_advances lines i, fun flush fuel fuel' cur stack inCode secs hf hf' =>
    extractLoop_fuel_irrelevant flush lines fuel fuel' i cur stack inCode secs hf hf'⟩

/-- Witness for C10 at a concrete input: a one-line table block advances the
index, and two sufficient budgets agree. -/
theorem segmenter_scan_terminates_witness :
    (is_low_quality_block ["|-|"] 0).1 = true ∧
    0 < (is_low_quality_block ["|-|"] 0).2 ∧
    extractLoopF flushSec ["|-|"] 1 0 ⟨none, 0, [], none⟩ [] false [] =
      extractLoopF flushSec ["|-|"] 7 0 ⟨none, 0, [], none⟩ [] false [] :=
  ⟨by decide, (segmenter_scan_terminates ["|-|"] 0).1 (by decide),
   (segmenter_scan_terminates ["|-|"] 0).2 flushSec 1 7 ⟨none, 0, [], none⟩ [] false []
     (by decide) (by decide)⟩

/-- Claim C7 (corrected): the segmenter keeps exactly the candidate sections
whose stripped body text is non-empty and **strictly longer than** 20
characters (`keepP`), identically for the final still-open section — not
"the sections not shorter than 20": a section of exactly 20 characters is
dropped (see the counterexample). -/
theorem min_length_filter_keeps_over_20 (content : String) (metadata : Metadata) :
    extract_sections content metadata =
      (candidateSections content metadata).filter keepP :=
  extract_sections_eq_filter content metadata

/-- Counterexample for C7 as stated: a section whose trimmed body text has
exactly 20 characters — not *shorter* than the 20-character threshold — is
nevertheless dropped, so "drops exactly the sections shorter than 20" is
false. -/
theorem min_length_boundary_cex :
    (⟨some "H", 1, none, "12345678901234567890"⟩ : SecRec) ∈
        candidateSections "# H\n12345678901234567890" [] ∧
    (pystrip "12345678901234567890").length = 20 ∧
    extract_sections "# H\n12345678901234567890" [] = [] := by decide

/-- Claim C8 (corrected): every emitted Section's `parent_heading` is either
null or the heading text of one of the document's heading lines whose level
is strictly less than the Section's level — but not necessarily the heading
of a Section that appears earlier in the emitted list: the parent's own
section may have been dropped by the minimum-length filter (see the
counterexample). -/
theorem parent_of_emitted_is_heading_line (content : String) (metadata : Metadata)
    (s : SecRec) (hs : s ∈ extract_sections content metadata) :
    s.parent_heading = none ∨
      ∃ p ∈ headerLines (pysplitLines content),
        some p.2 = s.parent_heading ∧ p.1 < s.level :=
  extract_sections_parentOk content metadata s hs

/-- Witness for C8's amended invariant at a concrete document. -/
theorem parent_of_emitted_witness :
    ((⟨some "B", 3, some "A",
        "This is body text longer than twenty characters."⟩ : SecRec) ∈
      extract_sections
        "## A\n### B\nThis is body text longer than twenty characters." []) ∧
    ((⟨some "B", 3, some "A",
        "This is body text longer than twenty characters."⟩ : SecRec).parent_heading
          = none ∨
      ∃ p ∈ headerLines (pysplitLines
          "## A\n### B\nThis is body text longer than twenty characters."),
        some p.2 = (⟨some "B", 3, some "A",
          "This is body text longer than twenty characters."⟩ : SecRec).parent_heading ∧
        p.1 < (⟨some "B", 3, some "A",
          "This is body text longer than twenty characters."⟩ : SecRec).level) :=
  ⟨by decide, parent_of_emitted_is_heading_line _ [] _ (by decide)⟩

/-- Counterexample for C8 as stated: the emitted list contains a single
Section whose `parent_heading` is `"A"`, yet no emitted Section at all has
heading `"A"` (its section was dropped as too short), so the parent is not
"the heading of a Section that appears earlier in the emitted list". -/
theorem parent_without_earlier_emitted_cex :
    extract_sections
        "## A\n### B\nThis is body text longer than twenty characters." [] =
      [⟨some "B", 3, some "A",
        "This is body text longer than twenty characters."⟩] ∧
    ∀ s ∈ extract_sections
        "## A\n### B\nThis is body text longer than twenty characters." [],
      s.heading ≠ some "A" := by decide

/-- Claim C9 (code_bug): on `fencedTableContent`, line 2 lies strictly inside
a fenced code block (between the ``` delimiter lines 1 and 3), yet
`extract_sections` emits a Section whose body text is exactly that line: the
table skip consumed the fence opener (line 1 contains a pipe), so the
scanner's code-block flag was never toggled.  The code's own comment says
"Skip code blocks entirely (don't index code)", and the claim says code-block
contents never appear in any Passage, so this is a slip in the code. -/
theorem fence_contents_indexed_bug :
    strictlyInsideFence (pysplitLines fencedTableContent) 2 = true ∧
    (pysplitLines fencedTableContent).getD 2 "" =
      "this secret line is well over twenty chars" ∧
    extract_sections fencedTableContent [] =
      [⟨none, 0, none, "this secret line is well over twenty chars"⟩] := by decide

/-- Claim C4 (corrected): when front-matter parsing raises, the error is
logged and the document is **not** skipped: `parse_frontmatter` falls back to
empty metadata and the raw (uncleaned) content, the document is segmented
from that raw content and contributes its sections' records to the store,
and the run continues with the remaining documents (every document counts
toward `files_processed`). -/
theorem malformed_frontmatter_doc_processed_raw (d : Doc) (rest : List Doc)
    (e : String → List Int) (s : Nat) (hfm : d.fmLoads = none) :
    parse_frontmatter d.fmLoads d.content = ([], d.content) ∧
    ∃ r, ingest_docs (d :: rest) e (fun _ => true) s = Except.ok r ∧
      r.filesProcessed = (d :: rest).length ∧
      r.totalSections = (extract_sections d.content []).length +
        (builtRecords e (s + (extract_sections d.content []).length) rest).length := by
  constructor
  · rw [hfm]
    rfl
  · obtain ⟨r, hr, _, _, htot, hfiles, _, _, _⟩ := ingest_docs_ok e (d :: rest) s
    refine ⟨r, hr, hfiles, ?_⟩
    rw [htot]
    have hhead : builtRecords e s (d :: rest) =
        docPoints e d s ++
          builtRecords e (s + (docPoints e d s).length) rest := rfl
    rw [hhead, List.length_append, docPoints_fm_none_length e d s hfm]

/-- Witness for C4: the malformed-front-matter document `noFmDoc` is
processed with its raw content and the run completes. -/
theorem malformed_frontmatter_witness :
    noFmDoc.fmLoads = none ∧
    (parse_frontmatter noFmDoc.fmLoads noFmDoc.content = ([], noFmDoc.content) ∧
     ∃ r, ingest_docs [noFmDoc] encStub (fun _ => true) 0 = Except.ok r ∧
       r.filesProcessed = [noFmDoc].length ∧
       r.totalSections = (extract_sections noFmDoc.content []).length +
         (builtRecords encStub
           (0 + (extract_sections noFmDoc.content []).length) []).length) :=
  ⟨rfl, malformed_frontmatter_doc_processed_raw noFmDoc [] encStub 0 rfl⟩

/-- Counterexample for C4 as stated: a document whose front-matter parsing
raises still contributes a record to the store (its raw content is indexed),
so "that document is skipped (contributes no records)" is false. -/
theorem malformed_frontmatter_still_contributes_cex :
    noFmDoc.fmLoads = none ∧ noFmDoc.content ≠ "" ∧
    (ingest_docs [noFmDoc] encStub (fun _ => true) 0).toOption.map
      (fun r => r.totalSections) = some 1 := by decide

/-- Claim C5 (corrected): a document for which no section survives the
minimum-length filter contributes **zero** records: there is no fallback that
indexes the whole cleaned document as a single implicit section, so a
non-empty document can produce zero records (see the counterexample). -/
theorem no_surviving_sections_zero_records (d : Doc) (e : String → List Int)
    (oracle : Nat → Bool) (s : Nat)
    (hsec : extract_sections (parse_frontmatter d.fmLoads d.content).2
        (parse_frontmatter d.fmLoads d.content).1 = []) :
    ∃ r, ingest_docs [d] e oracle s = Except.ok r ∧
      r.totalSections = 0 ∧ r.calls = [] ∧ r.failedCalls = [] := by
  have hpts : docPoints e d (initSt s).nextId = [] := by
    unfold docPoints
    dsimp only
    rw [hsec]
    rfl
  have hloop : ingestLoop e oracle [d] (initSt s) =
      processDoc e oracle (initSt s) d := rfl
  have hres : ingest_docs [d] e oracle s = Except.ok ⟨[], [], [], s, 0, 0, 1⟩ := by
    unfold ingest_docs
    rw [hloop]
    unfold processDoc
    rw [hpts]
    rfl
  exact ⟨_, hres, rfl, rfl, rfl⟩

/-- Witness for C5: the non-empty document `shortDoc` produces no section
and the run writes nothing for it. -/
theorem no_surviving_sections_witness :
    extract_sections (parse_frontmatter shortDoc.fmLoads shortDoc.content).2
        (parse_frontmatter shortDoc.fmLoads shortDoc.content).1 = [] ∧
    (∃ r, ingest_docs [shortDoc] encStub (fun _ => true) 0 = Except.ok r ∧
      r.totalSections = 0 ∧ r.calls = [] ∧ r.failedCalls = []) :=
  ⟨by decide, no_surviving_sections_zero_records shortDoc encStub (fun _ => true) 0
    (by decide)⟩

/-- Counterexample for C5 as stated: `shortDoc` has non-empty content but
produces zero records — no single implicit section is created. -/
theorem nonempty_doc_zero_records_cex :
    shortDoc.content ≠ "" ∧
    (ingest_docs [shortDoc] encStub (fun _ => true) 0).toOption.map
      (fun r => (r.totalSections, r.calls.length)) = some (0, 0) := by decide

/-- Claim C1 (corrected): the pipeline has no persisted hash manifest and no
change detection — every run deletes and recreates the collection and
re-processes every document.  A second run over an unchanged source tree
therefore performs exactly the same write operations as the first (the same
calls with identical vectors and payloads, the same counters; only the
record identities differ, since they are freshly generated each run), rather
than zero writes: the two runs are identical after erasing record
identities, for any two states of the fresh-id supply. -/
theorem rerun_writes_same_up_to_ids (docs : List Doc) (e : String → List Int)
    (oracle : Nat → Bool) (a b : Nat) :
    Except.map eraseSt (ingest_docs docs e oracle a) =
      Except.map eraseSt (ingest_docs docs e oracle b) := by
  have hL : eraseSt (ingestLoop e oracle docs (initSt a)) =
      eraseSt (ingestLoop e oracle docs (initSt b)) :=
    ingestLoop_erase e oracle docs rfl
  unfold ingest_docs
  unfold eraseSt at hL
  simp only [Prod.mk.injEq] at hL
  obtain ⟨hpts, hcalls, hfail, hcix, htot, hfiles⟩ := hL
  have hplen : (ingestLoop e oracle docs (initSt a)).points.length =
      (ingestLoop e oracle docs (initSt b)).points.length := by
    have := congrArg List.length hpts
    simpa using this
  have hne : ((ingestLoop e oracle docs (initSt a)).points != []) =
      ((ingestLoop e oracle docs (initSt b)).points != []) := by
    by_cases hA0 : (ingestLoop e oracle docs (initSt a)).points = []
    · have hB0 : (ingestLoop e oracle docs (initSt b)).points = [] := by
        rw [hA0] at hplen
        exact (List.length_eq_zero.mp hplen.symm)
      rw [hA0, hB0]
    · have hB0 : (ingestLoop e oracle docs (initSt b)).points ≠ [] := by
        intro hB0
        rw [hB0] at hplen
        exact hA0 (List.length_eq_zero.mp hplen)
      have h1 : ((ingestLoop e oracle docs (initSt a)).points != []) = true := by
        simpa using hA0
      have h2 : ((ingestLoop e oracle docs (initSt b)).points != []) = true := by
        simpa using hB0
      rw [h1, h2]
  by_cases hA : ((ingestLoop e oracle docs (initSt a)).points != []) = true
  · have hB : ((ingestLoop e oracle docs (initSt b)).points != []) = true :=
      hne ▸ hA
    rw [if_pos hA, if_pos hB, hcix]
    by_cases ho : oracle (ingestLoop e oracle docs (initSt b)).callIdx = true
    · rw [if_pos ho, if_pos ho]
      simp only [Except.map]
      congr 1
      simp [eraseSt, List.map_append, hpts, hcalls, hfail, hcix, htot, hfiles]
    · rw [if_neg ho, if_neg ho]
  · have hB : ¬ ((ingestLoop e oracle docs (initSt b)).points != []) = true := by
      rw [← hne]; exact hA
    rw [if_neg hA, if_neg hB]
    simp only [Except.map]
    congr 1
    simp [eraseSt, hpts, hcalls, hfail, hcix, htot, hfiles]

/-- Counterexample for C1 as stated: re-running the pipeline over the same
unchanged one-document tree (the second run starting from the fresh-id
supply state `1` left by the first run, whose `nextId` is `1`) performs one
write call delivering one record — not zero write operations. -/
theorem second_run_nonzero_writes_cex :
    (ingest_docs [docA] encStub (fun _ => true) 0).toOption.map
      (fun r => r.nextId) = some 1 ∧
    (ingest_docs [docA] encStub (fun _ => true) 1).toOption.map
      (fun r => (r.calls.length, r.totalSections)) = some (1, 1) := by decide

/-- Claim C2 (corrected): there is no deterministic-identity mode — record
identities come from `uuid.uuid4()`, modelled as a fresh-identifier supply:
a run starting at supply state `s` assigns exactly the identities
`s, s+1, …` in build order, so re-ingesting the same documents (the second
run continuing the supply) yields a *disjoint* set of record identities, not
the same set; identity is not a function of document path and passage
ordinal.  The store's total count fails to grow across runs only because
each run first deletes and recreates the whole collection. -/
theorem record_ids_fresh_not_deterministic (docs : List Doc)
    (e : String → List Int) (s : Nat) (r r2 : RunSt)
    (h1 : ingest_docs docs e (fun _ => true) s = Except.ok r)
    (h2 : ingest_docs docs e (fun _ => true) r.nextId = Except.ok r2) :
    r.calls.join.map (fun pt => pt.id) = List.range' s r.totalSections ∧
    r2.calls.join.map (fun pt => pt.id) =
      List.range' r.nextId r2.totalSections ∧
    ∀ pid ∈ r.calls.join.map (fun pt => pt.id),
      pid ∉ r2.calls.join.map (fun pt => pt.id) := by
  obtain ⟨r0, hr0, hjoin0, _, htot0, _, hnext0, _, _⟩ := ingest_docs_ok e docs s
  rw [h1] at hr0
  injection hr0 with hrr
  subst hrr
  obtain ⟨r0', hr0', hjoin0', _, htot0', _, hnext0', _, _⟩ :=
    ingest_docs_ok e docs r.nextId
  rw [h2] at hr0'
  injection hr0' with hrr'
  subst hrr'
  have hid1 : r.calls.join.map (fun pt => pt.id) =
      List.range' s r.totalSections := by
    rw [hjoin0, builtRecords_ids, htot0]
  have hid2 : r2.calls.join.map (fun pt => pt.id) =
      List.range' r.nextId r2.totalSections := by
    rw [hjoin0', builtRecords_ids, htot0']
  refine ⟨hid1, hid2, ?_⟩
  intro pid hmem hmem2
  rw [hid1, List.mem_range'_1] at hmem
  rw [hid2, List.mem_range'_1] at hmem2
  rw [htot0] at hmem
  rw [hnext0] at hmem2
  omega

/-- Witness for C2's amended behaviour at a concrete document: two
consecutive runs over `[docA]` assign identity 0 and then identity 1. -/
theorem record_ids_fresh_witness :
    ingest_docs [docA] encStub (fun _ => true) 0 = Except.ok runA0 ∧
    ingest_docs [docA] encStub (fun _ => true) runA0.nextId = Except.ok runA1 ∧
    (runA0.calls.join.map (fun pt => pt.id) =
        List.range' 0 runA0.totalSections ∧
     runA1.calls.join.map (fun pt => pt.id) =
        List.range' runA0.nextId runA1.totalSections ∧
     ∀ pid ∈ runA0.calls.join.map (fun pt => pt.id),
       pid ∉ runA1.calls.join.map (fun pt => pt.id)) :=
  ⟨rfl, rfl,
   record_ids_fresh_not_deterministic [docA] encStub 0 runA0 runA1 rfl rfl⟩

/-- Counterexample for C2 as stated: ingesting the same document twice
(identical content and configuration, the second run continuing the id
supply whose state after the first run is 1) yields identity set `[0]` the
first time and `[1]` the second — different identity sets, so identity is
not a pure function of path and ordinal. -/
theorem same_doc_twice_new_ids_cex :
    (ingest_docs [docA] encStub (fun _ => true) 0).toOption.map
      (fun r => r.calls.join.map (fun pt => pt.id)) = some [0] ∧
    (ingest_docs [docA] encStub (fun _ => true) 1).toOption.map
      (fun r => r.calls.join.map (fun pt => pt.id)) = some [1] := by decide

/-- Claim C3 (corrected): the publisher makes exactly one attempt per flush —
there is no retry ceiling and no backoff.  A store write that fails during
the document loop is caught by the per-document handler and swallowed (the
run continues; the accumulated records are retained and re-attempted at the
next flush), and the run terminates with a propagated error **iff** the
final flush is attempted and fails. -/
theorem run_error_iff_final_flush_fails (docs : List Doc)
    (e : String → List Int) (oracle : Nat → Bool) (s : Nat) :
    (∃ msg, ingest_docs docs e oracle s = Except.error msg) ↔
      ((ingestLoop e oracle docs (initSt s)).points ≠ [] ∧
       oracle (ingestLoop e oracle docs (initSt s)).callIdx = false) := by
  unfold ingest_docs
  by_cases hne : ((ingestLoop e oracle docs (initSt s)).points != []) = true
  · rw [if_pos hne]
    by_cases ho : oracle (ingestLoop e oracle docs (initSt s)).callIdx = true
    · rw [if_pos ho]
      constructor
      · rintro ⟨msg, hmsg⟩
        simp at hmsg
      · rintro ⟨_, hfalse⟩
        rw [ho] at hfalse
        cases hfalse
    · rw [if_neg ho]
      constructor
      · intro _
        exact ⟨by simpa using hne, by simpa using ho⟩
      · intro _
        exact ⟨_, rfl⟩
  · rw [if_neg hne]
    constructor
    · rintro ⟨msg, hmsg⟩
      simp at hmsg
    · rintro ⟨hp, _⟩
      exact absurd (by simpa using hne) hp

/-- Counterexample for C3 as stated: on `manyDocs` with an oracle that fails
exactly the first upsert attempt, a write of 101 records fails on its only
attempt (there is no second or third attempt and no backoff), yet the run
returns success — the failure was caught by the per-document handler and
swallowed, refuting "a write that fails on every attempt makes the run
terminate with a fatal, propagated error". -/
theorem swallowed_write_failure_cex :
    (ingest_docs manyDocs encStub (fun i => !(i == 0)) 0).toOption.map
      (fun r => (r.failedCalls.map (fun b => b.length),
                 r.calls.map (fun b => b.length))) = some ([101], [101]) := by decide

/-- Claim C6 (corrected): in a failure-free run every built record is written
exactly once — the successful calls, concatenated in order, are exactly the
built records, the last partial batch is always flushed (no records remain
pending) — and every write call except possibly the last carries **at
least** 100 records, with no upper bound: the flush condition is only
checked between documents, so a single document can push a call beyond the
configured batch size of 100 (see the counterexample). -/
theorem every_record_written_once_batches_unbounded (docs : List Doc)
    (e : String → List Int) (s : Nat) (r : RunSt)
    (h : ingest_docs docs e (fun _ => true) s = Except.ok r) :
    r.calls.join = builtRecords e s docs ∧
    (∀ b ∈ r.calls.dropLast, 100 ≤ b.length) ∧
    r.points = [] := by
  obtain ⟨r0, hr0, hjoin, hpts, _, _, _, _, hdrop⟩ := ingest_docs_ok e docs s
  rw [h] at hr0
  injection hr0 with hrr
  subst hrr
  exact ⟨hjoin, hdrop, hpts⟩

/-- Witness for C6's amended behaviour at a concrete run. -/
theorem every_record_written_once_witness :
    ingest_docs [docA] encStub (fun _ => true) 0 = Except.ok runA0 ∧
    (runA0.calls.join = builtRecords encStub 0 [docA] ∧
     (∀ b ∈ runA0.calls.dropLast, 100 ≤ b.length) ∧
     runA0.points = []) :=
  ⟨rfl, every_record_written_once_batches_unbounded [docA] encStub 0 runA0 rfl⟩

/-- Counterexample for C6 as stated: on `manyDocs` the single mid-loop flush
delivers 101 records in one write call — more than the configured maximum
batch size of 100. -/
theorem oversized_batch_cex :
    (ingest_docs manyDocs encStub (fun _ => true) 0).toOption.map
      (fun r => r.calls.map (fun b => b.length)) = some [101] := by decide

end Ingestion
